import Mathlib

/-!
Verification model of the include_data crate (src/src/lib.rs).

The crate embeds file bytes into static data and reinterprets them as typed
values.  We model a file's contents as a `List Nat` of bytes (each `< 256`
where it matters), the target/element types by their size in bytes and, for
the safe paths, by an explicit Pod (plain-old-data) coding structure
mirroring the bytemuck::Pod trait bound, and repr(C) struct layout by the
standard offset computation of the Rust reference.  Compile-time failures
(transmute size mismatch, the divisibility assert in include_slice) are
modelled as `none`.
-/

namespace IncludeData

/-- Little-endian interpretation of a byte list as a natural number:
the first byte is least significant.  This is how a little-endian target
reads a multi-byte integer out of the included bytes. -/
def fromLeBytes : List Nat → Nat
  | [] => 0
  | b :: rest => b + 256 * fromLeBytes rest

/-- Little-endian serialization of a value into `w` bytes. -/
def toLeBytes : Nat → Nat → List Nat
  | 0, _ => []
  | w + 1, v => v % 256 :: toLeBytes w (v / 256)

/-- Big-endian interpretation: the first byte is most significant. -/
def fromBeBytes (B : List Nat) : Nat := fromLeBytes B.reverse

/-- The first `n` chunks of `s` bytes each, cut from `B` in order: chunk `k`
is bytes `[k*s, (k+1)*s)` of `B`.  This is the byte-level meaning of
`core::slice::from_raw_parts(ptr, n)` over elements of size `s` in
`include_slice` (src/src/lib.rs lines 230-232). -/
def chunks (s : Nat) : Nat → List Nat → List (List Nat)
  | 0, _ => []
  | n + 1, B => B.take s :: chunks s n (B.drop s)

/-- Model of `include_slice!(T, file)` (src/src/lib.rs lines 214-236) for an
element type of size `s` applied to file bytes `B`.  The macro computes
`SIZE = size_of::<T>()`, asserts `byte_slice.len() % SIZE == 0` (a panic /
const-eval failure otherwise, and `% 0` itself panics for a zero-sized `T`),
then reinterprets the aligned bytes as `len / SIZE` elements of `s` bytes
each.  Failure is `none`; success returns the element byte-chunks in order. -/
def includeSlice (s : Nat) (B : List Nat) : Option (List (List Nat)) :=
  if s = 0 then none
  else if B.length % s = 0 then some (chunks s (B.length / s) B)
  else none

/-- Model of the bytemuck::Pod attestation consumed by `include_data!`:
a type `V` of byte size `size` in which every byte pattern of the right
length is a legal value (no padding, no forbidden patterns), witnessed by a
total coding bijection between values and byte lists. -/
structure Pod (V : Type) where
  size : Nat
  toBytes : V → List Nat
  fromBytes : List Nat → V
  toBytes_length : ∀ v, (toBytes v).length = size
  toBytes_lt : ∀ v, ∀ b ∈ toBytes v, b < 256
  from_to : ∀ v, fromBytes (toBytes v) = v
  to_from : ∀ B, B.length = size → (∀ b ∈ B, b < 256) → toBytes (fromBytes B) = B

/-- Model of `include_data!(file)` at target type `p` (src/src/lib.rs lines
100-111): `transmute(*include_bytes!(file))` from `[u8; N]` to `T` compiles
only when `N = size_of::<T>()` (otherwise a compile error, modelled `none`)
and then reinterprets the bytes as a value of `T`. -/
def includeData {V : Type} (p : Pod V) (B : List Nat) : Option V :=
  if B.length = p.size then some (p.fromBytes B) else none

/-- Model of `include_unsafe!(file)` at a target type of size `tsize`
(src/src/lib.rs lines 167-176): the same size-checked transmute as
`include_data!` but with no Pod bound.  For an arbitrary sized type the
transmuted value is represented by its full byte image (padding positions
included), which transmute preserves byte-for-byte. -/
def includeUnchecked (tsize : Nat) (B : List Nat) : Option (List Nat) :=
  if B.length = tsize then some B else none

/-- Least multiple of `a` that is `≥ off` (for `a > 0`): the field-offset
rounding of repr(C) layout. -/
def roundUpTo (off a : Nat) : Nat := (off + a - 1) / a * a

/-- repr(C) field offsets: fields are `(size, align)` pairs placed in
declaration order, each at the next multiple of its alignment. -/
def reprCPlace (off : Nat) : List (Nat × Nat) → List Nat
  | [] => []
  | f :: rest => roundUpTo off f.2 :: reprCPlace (roundUpTo off f.2 + f.1) rest

/-- Offset just past the last repr(C) field. -/
def reprCEnd (off : Nat) : List (Nat × Nat) → Nat
  | [] => off
  | f :: rest => reprCEnd (roundUpTo off f.2 + f.1) rest

/-- repr(C) aggregate alignment: the maximum field alignment (at least 1). -/
def reprCAlign (fields : List (Nat × Nat)) : Nat :=
  fields.foldr (fun f a => max f.2 a) 1

/-- repr(C) aggregate size: the end offset rounded up to the alignment. -/
def reprCSize (fields : List (Nat × Nat)) : Nat :=
  roundUpTo (reprCEnd 0 fields) (reprCAlign fields)

/-- The field list of `AlignedAs<T, [u8; n]>` (src/src/lib.rs lines
353-360): `_align : [T; 0]` (size `0`, alignment `alT = align_of::<T>()`)
followed by `bytes : [u8; n]` (size `n`, alignment `1`), in a repr(C)
aggregate. -/
def alignedAsFields (alT n : Nat) : List (Nat × Nat) := [(0, alT), (n, 1)]

/-- Reading a struct field out of a value's byte image on a little-endian
target: the `sz` bytes starting at the field's offset, least significant
first. -/
def readFieldLE (V : List Nat) (off sz : Nat) : Nat :=
  fromLeBytes ((V.drop off).take sz)

/-- The repr(C) field list of the two-field struct `{ byte: u8, two_bytes:
u16 }` from the `include_unsafe` documentation example (src/src/lib.rs lines
133-137): a 1-byte field of alignment 1 and a 2-byte field of alignment 2. -/
def structByteU16 : List (Nat × Nat) := [(1, 1), (2, 2)]

/-- The bytes of the test file `file_exactly_4_bytes_long` as used in
src/tests/include_unsafe.rs lines 14-28. -/
def fourBytes : List Nat := [0x01, 0x00, 0x02, 0x03]

theorem toLeBytes_length (w v : Nat) : (toLeBytes w v).length = w := by
  induction w generalizing v with
  | zero => rfl
  | succ w ih => simp [toLeBytes, ih]

theorem toLeBytes_lt (w v : Nat) : ∀ b ∈ toLeBytes w v, b < 256 := by
  induction w generalizing v with
  | zero => intro b hb; simp [toLeBytes] at hb
  | succ w ih =>
    intro b hb
    simp only [toLeBytes, List.mem_cons] at hb
    rcases hb with h | h
    · exact h ▸ Nat.mod_lt _ (by omega)
    · exact ih _ b h

theorem fromLeBytes_lt (B : List Nat) (hb : ∀ b ∈ B, b < 256) :
    fromLeBytes B < 256 ^ B.length := by
  induction B with
  | nil => simp [fromLeBytes]
  | cons b rest ih =>
    have h1 : b < 256 := hb b (List.mem_cons_self b rest)
    have h2 : fromLeBytes rest < 256 ^ rest.length :=
      ih fun x hx => hb x (List.mem_cons_of_mem b hx)
    simp only [fromLeBytes, List.length_cons, pow_succ]
    omega

theorem toLe_fromLe (B : List Nat) (hb : ∀ b ∈ B, b < 256) :
    toLeBytes B.length (fromLeBytes B) = B := by
  induction B with
  | nil => rfl
  | cons b rest ih =>
    have h1 : b < 256 := hb b (List.mem_cons_self b rest)
    have hmod : (b + 256 * fromLeBytes rest) % 256 = b := by
      rw [Nat.add_mul_mod_self_left, Nat.mod_eq_of_lt h1]
    have hdiv : (b + 256 * fromLeBytes rest) / 256 = fromLeBytes rest := by
      rw [Nat.add_mul_div_left _ _ (by omega : 0 < 256), Nat.div_eq_of_lt h1,
        Nat.zero_add]
    simp only [fromLeBytes, List.length_cons, toLeBytes, hmod, hdiv]
    congr 1
    exact ih fun x hx => hb x (List.mem_cons_of_mem b hx)

theorem fromLe_toLe (w v : Nat) : fromLeBytes (toLeBytes w v) = v % 256 ^ w := by
  induction w generalizing v with
  | zero => simp [toLeBytes, fromLeBytes, Nat.mod_one]
  | succ w ih =>
    simp only [toLeBytes, fromLeBytes, ih]
    have hmul : 256 ^ (w + 1) = 256 * 256 ^ w := by ring
    rw [hmul, Nat.mod_mul]

theorem chunks_length (s n : Nat) (B : List Nat) : (chunks s n B).length = n := by
  induction n generalizing B with
  | zero => rfl
  | succ n ih => simp [chunks, ih]

theorem chunks_flatten (s : Nat) : ∀ n B, B.length = s * n → (chunks s n B).flatten = B := by
  intro n
  induction n with
  | zero =>
    intro B hB
    have : B = [] := List.length_eq_zero.mp (by omega)
    simp [this, chunks]
  | succ n ih =>
    intro B hB
    have hlen : (B.drop s).length = s * n := by
      simp only [List.length_drop]
      have : s * (n + 1) = s * n + s := by ring
      omega
    simp only [chunks, List.flatten_cons, ih (B.drop s) hlen]
    exact List.take_append_drop s B

theorem chunks_get? (s : Nat) :
    ∀ n k B, k < n → (chunks s n B).get? k = some ((B.drop (k * s)).take s) := by
  intro n
  induction n with
  | zero => intro k B hk; omega
  | succ n ih =>
    intro k B hk
    cases k with
    | zero => simp [chunks]
    | succ k =>
      have hkn : k < n := by omega
      simp only [chunks, List.get?_cons_succ, ih k (B.drop s) hkn]
      congr 2
      rw [List.drop_drop]
      congr 1
      ring

/-- The `u32` target type on a little-endian execution target: values are
naturals below `256^4`, decoded from included bytes least-significant
first.  This instantiates the Pod attestation for the `include_u32` and
`include_as_const` tests (src/tests/include_data.rs lines 3-12, 46-55). -/
def u32le : Pod (Fin (256 ^ 4)) where
  size := 4
  toBytes := fun v => toLeBytes 4 v.val
  fromBytes := fun B => ⟨fromLeBytes B % 256 ^ 4, Nat.mod_lt _ (by norm_num)⟩
  toBytes_length := fun v => toLeBytes_length 4 v.val
  toBytes_lt := fun v => toLeBytes_lt 4 v.val
  from_to := by
    intro v
    apply Fin.ext
    show fromLeBytes (toLeBytes 4 v.val) % 256 ^ 4 = v.val
    rw [fromLe_toLe, Nat.mod_eq_of_lt v.isLt, Nat.mod_eq_of_lt v.isLt]
  to_from := by
    intro B hlen hlt
    show toLeBytes 4 (fromLeBytes B % 256 ^ 4) = B
    have hbound : fromLeBytes B < 256 ^ 4 := hlen ▸ fromLeBytes_lt B hlt
    rw [Nat.mod_eq_of_lt hbound, ← hlen, toLe_fromLe B hlt]

/-- The `u32` target type on a big-endian execution target: the same byte
image is decoded most-significant byte first. -/
def u32be : Pod (Fin (256 ^ 4)) where
  size := 4
  toBytes := fun v => (toLeBytes 4 v.val).reverse
  fromBytes := fun B => ⟨fromLeBytes B.reverse % 256 ^ 4, Nat.mod_lt _ (by norm_num)⟩
  toBytes_length := fun v => by
    rw [List.length_reverse]
    exact toLeBytes_length 4 v.val
  toBytes_lt := fun v b hb =>
    toLeBytes_lt 4 v.val b (List.mem_reverse.mp hb)
  from_to := by
    intro v
    apply Fin.ext
    show fromLeBytes (toLeBytes 4 v.val).reverse.reverse % 256 ^ 4 = v.val
    rw [List.reverse_reverse, fromLe_toLe, Nat.mod_eq_of_lt v.isLt,
      Nat.mod_eq_of_lt v.isLt]
  to_from := by
    intro B hlen hlt
    show (toLeBytes 4 (fromLeBytes B.reverse % 256 ^ 4)).reverse = B
    have hlt' : ∀ b ∈ B.reverse, b < 256 := fun b hb => hlt b (List.mem_reverse.mp hb)
    have hlen' : B.reverse.length = 4 := by rw [List.length_reverse]; exact hlen
    have hbound : fromLeBytes B.reverse < 256 ^ 4 :=
      hlen' ▸ fromLeBytes_lt B.reverse hlt'
    rw [Nat.mod_eq_of_lt hbound, ← hlen', toLe_fromLe B.reverse hlt',
      List.reverse_reverse]

/-- Alias `include_u8s!` (src/src/lib.rs lines 242-247): expands to
`include_slice!(u8, file)`; `size_of::<u8>() = 1`. -/
def include_u8s (B : List Nat) : Option (List (List Nat)) := includeSlice 1 B

/-- Alias `include_u16s!` (src/src/lib.rs lines 249-255): expands to
`include_slice!(u16, file)`; `size_of::<u16>() = 2`. -/
def include_u16s (B : List Nat) : Option (List (List Nat)) := includeSlice 2 B

/-- Alias `include_u32s!` (src/src/lib.rs lines 257-263): expands to
`include_slice!(u32, file)`; `size_of::<u32>() = 4`. -/
def include_u32s (B : List Nat) : Option (List (List Nat)) := includeSlice 4 B

/-- Alias `include_u64s!` (src/src/lib.rs lines 265-271): expands to
`include_slice!(u64, file)`; `size_of::<u64>() = 8`. -/
def include_u64s (B : List Nat) : Option (List (List Nat)) := includeSlice 8 B

/-- Alias `include_u128s!` (src/src/lib.rs lines 273-279): expands to
`include_slice!(u128, file)`; `size_of::<u128>() = 16`. -/
def include_u128s (B : List Nat) : Option (List (List Nat)) := includeSlice 16 B

/-- Alias `include_usizes!` (src/src/lib.rs lines 281-287): expands to
`include_slice!(usize, file)`; `size_of::<usize>()` is the target's pointer
width `pw` in bytes. -/
def include_usizes (pw : Nat) (B : List Nat) : Option (List (List Nat)) :=
  includeSlice pw B

/-- Alias `include_i8s!` (src/src/lib.rs lines 289-295): expands to
`include_slice!(i8, file)`; `size_of::<i8>() = 1`. -/
def include_i8s (B : List Nat) : Option (List (List Nat)) := includeSlice 1 B

/-- Alias `include_i16s!` (src/src/lib.rs lines 297-303): expands to
`include_slice!(i16, file)`; `size_of::<i16>() = 2`. -/
def include_i16s (B : List Nat) : Option (List (List Nat)) := includeSlice 2 B

/-- Alias `include_i32s!` (src/src/lib.rs lines 305-311): expands to
`include_slice!(i32, file)`; `size_of::<i32>() = 4`. -/
def include_i32s (B : List Nat) : Option (List (List Nat)) := includeSlice 4 B

/-- Alias `include_i64s!` (src/src/lib.rs lines 313-319): expands to
`include_slice!(i64, file)`; `size_of::<i64>() = 8`. -/
def include_i64s (B : List Nat) : Option (List (List Nat)) := includeSlice 8 B

/-- Alias `include_i128s!` (src/src/lib.rs lines 321-327): expands to
`include_slice!(i128, file)`; `size_of::<i128>() = 16`. -/
def include_i128s (B : List Nat) : Option (List (List Nat)) := includeSlice 16 B

/-- Alias `include_isizes!` (src/src/lib.rs lines 329-335): expands to
`include_slice!(isize, file)`; `size_of::<isize>()` is the pointer width. -/
def include_isizes (pw : Nat) (B : List Nat) : Option (List (List Nat)) :=
  includeSlice pw B

/-- Alias `include_f32s!` (src/src/lib.rs lines 337-343): expands to
`include_slice!(f32, file)`; `size_of::<f32>() = 4`. -/
def include_f32s (B : List Nat) : Option (List (List Nat)) := includeSlice 4 B

/-- Alias `include_f64s!` (src/src/lib.rs lines 345-351): expands to
`include_slice!(f64, file)` — the declared `include_slice` entry point —
with `size_of::<f64>() = 8`. -/
def include_f64s (B : List Nat) : Option (List (List Nat)) := includeSlice 8 B

/-- Claim C1: in the repr(C) aggregate `AlignedAs<T, _>` the zero-size
`[T; 0]` field placed first forces the aggregate alignment to at least
`align_of::<T>()` while the `bytes` field sits at offset 0, so whenever the
aggregate is placed at an address aligned for the aggregate (which the
allocation of a static guarantees), the byte storage begins at an address
that is a multiple of `align_of::<T>()`, with no runtime check. -/
theorem c1_aligned_as_alignment (alT n addr : Nat) (h1 : 0 < alT)
    (h2 : addr % reprCAlign (alignedAsFields alT n) = 0) :
    alT ≤ reprCAlign (alignedAsFields alT n) ∧
      ∃ off, (reprCPlace 0 (alignedAsFields alT n)).get? 1 = some off ∧
        (addr + off) % alT = 0 := by
  have halign : reprCAlign (alignedAsFields alT n) = max alT 1 := by
    simp [reprCAlign, alignedAsFields]
  have hmax : max alT 1 = alT := max_eq_left h1
  have hr0 : roundUpTo 0 alT = 0 := by
    unfold roundUpTo
    rw [Nat.zero_add, Nat.div_eq_of_lt (by omega), Nat.zero_mul]
  have hr1 : roundUpTo 0 1 = 0 := by
    unfold roundUpTo
    norm_num
  have hplace : reprCPlace 0 (alignedAsFields alT n) = [0, 0] := by
    simp [reprCPlace, alignedAsFields, hr0, hr1]
  constructor
  · rw [halign]
    exact le_max_left alT 1
  · refine ⟨0, ?_, ?_⟩
    · rw [hplace]
      rfl
    · rw [Nat.add_zero]
      rw [halign, hmax] at h2
      exact h2

/-- Witness for C1 at `align_of::<T>() = 4`, a 7-byte buffer and aggregate
address 8. -/
theorem c1_aligned_as_alignment_witness :
    4 ≤ reprCAlign (alignedAsFields 4 7) ∧
      ∃ off, (reprCPlace 0 (alignedAsFields 4 7)).get? 1 = some off ∧
        (8 + off) % 4 = 0 :=
  c1_aligned_as_alignment 4 7 8 (by decide) (by decide)

/-- Claim C2: when the file length is divisible by the element size `s`
(and the element type is not zero-sized), `include_slice` succeeds with
exactly `len / s` elements, element `k` is the file bytes
`[k*s, (k+1)*s)`, and concatenating all element byte images reproduces the
file exactly. -/
theorem c2_slice_reconstruction (s : Nat) (B : List Nat) (hs : 0 < s)
    (hd : B.length % s = 0) :
    ∃ L, includeSlice s B = some L ∧ L.length = B.length / s ∧
      L.flatten = B ∧
      ∀ k, k < L.length → L.get? k = some ((B.drop (k * s)).take s) := by
  refine ⟨chunks s (B.length / s) B, ?_, chunks_length s _ B, ?_, ?_⟩
  · unfold includeSlice
    rw [if_neg (by omega), if_pos hd]
  · exact chunks_flatten s _ B
      (Nat.mul_div_cancel' (Nat.dvd_of_mod_eq_zero hd)).symm
  · intro k hk
    rw [chunks_length] at hk
    exact chunks_get? s _ k B hk

/-- Witness for C2: file `[10, 11, 12, 13]` as elements of size 2. -/
theorem c2_slice_reconstruction_witness :
    ∃ L, includeSlice 2 [10, 11, 12, 13] = some L ∧
      L.length = ([10, 11, 12, 13] : List Nat).length / 2 ∧
      L.flatten = [10, 11, 12, 13] ∧
      ∀ k, k < L.length →
        L.get? k = some ((([10, 11, 12, 13] : List Nat).drop (k * 2)).take 2) :=
  c2_slice_reconstruction 2 [10, 11, 12, 13] (by decide) (by decide)

/-- Claim C3: for a non-zero element size `s`, `include_slice` succeeds if
and only if the file length is divisible by `s` (otherwise the assert makes
the build/initialization fail), and any successful result concatenates back
to the whole file — never a truncated slice. -/
theorem c3_divisibility_rejection (s : Nat) (B : List Nat) (hs : 0 < s) :
    ((∃ L, includeSlice s B = some L) ↔ B.length % s = 0) ∧
      ∀ L, includeSlice s B = some L → L.flatten = B := by
  have hs' : ¬s = 0 := by omega
  constructor
  · constructor
    · rintro ⟨L, hL⟩
      by_contra hmod
      unfold includeSlice at hL
      rw [if_neg hs', if_neg hmod] at hL
      exact Option.noConfusion hL
    · intro hmod
      refine ⟨chunks s (B.length / s) B, ?_⟩
      unfold includeSlice
      rw [if_neg hs', if_pos hmod]
  · intro L hL
    unfold includeSlice at hL
    rw [if_neg hs'] at hL
    by_cases hmod : B.length % s = 0
    · rw [if_pos hmod] at hL
      have hL' : L = chunks s (B.length / s) B := (Option.some.inj hL).symm
      rw [hL']
      exact chunks_flatten s _ B
        (Nat.mul_div_cancel' (Nat.dvd_of_mod_eq_zero hmod)).symm
    · rw [if_neg hmod] at hL
      exact Option.noConfusion hL

/-- Witness for C3: a 2-byte file at element size 3 (the failing side of
the equivalence holds there). -/
theorem c3_divisibility_rejection_witness :
    ((∃ L, includeSlice 3 [0, 1] = some L) ↔ ([0, 1] : List Nat).length % 3 = 0) ∧
      ∀ L, includeSlice 3 [0, 1] = some L → L.flatten = [0, 1] :=
  c3_divisibility_rejection 3 [0, 1] (by decide)

/-- Claim C4: for any byte sequence of length exactly `size_of::<T>()` and
any target type carrying the Pod attestation, `include_data!` succeeds and
materializes a value whose byte representation is exactly the file bytes
(round-trip). -/
theorem c4_data_roundtrip {V : Type} (p : Pod V) (B : List Nat)
    (hlen : B.length = p.size) (hlt : ∀ b ∈ B, b < 256) :
    ∃ v, includeData p B = some v ∧ p.toBytes v = B := by
  refine ⟨p.fromBytes B, ?_, p.to_from B hlen hlt⟩
  unfold includeData
  rw [if_pos hlen]

/-- Witness for C4: the little-endian `u32` target on the 4-byte test file
`binary_4` = `[0x00, 0x01, 0x02, 0x03]`. -/
theorem c4_data_roundtrip_witness :
    ∃ v, includeData u32le [0x00, 0x01, 0x02, 0x03] = some v ∧
      u32le.toBytes v = [0x00, 0x01, 0x02, 0x03] :=
  c4_data_roundtrip u32le [0x00, 0x01, 0x02, 0x03] (by decide) (by decide)

/-- Claim C5: `include_data!` fails (the transmute from `[u8; N]` does not
compile) exactly when the file length differs from `size_of::<T>()`; a
mismatched file is never truncated or padded into a value. -/
theorem c5_data_size_mismatch {V : Type} (p : Pod V) (B : List Nat) :
    includeData p B = none ↔ B.length ≠ p.size := by
  unfold includeData
  by_cases h : B.length = p.size
  · simp [h]
  · simp [h]

/-- Claim C6: the 4-byte file `[0x00, 0x01, 0x02, 0x03]` included as an
unsigned 32-bit scalar yields `0x03020100` on a little-endian target and
`0x00010203` on a big-endian target: interpretation follows the execution
target's endianness. -/
theorem c6_endianness :
    (includeData u32le [0x00, 0x01, 0x02, 0x03]).map Fin.val = some 0x03020100 ∧
      (includeData u32be [0x00, 0x01, 0x02, 0x03]).map Fin.val = some 0x00010203 := by
  constructor
  · rfl
  · rfl

/-- Claim C9: for any non-zero element size, including an empty file as a
slice succeeds — `0` is divisible by the element size — and yields the
empty slice (`0` elements). -/
theorem c9_empty_file (s : Nat) (hs : 0 < s) :
    includeSlice s ([] : List Nat) = some [] := by
  unfold includeSlice
  rw [if_neg (by omega)]
  have h0 : ([] : List Nat).length % s = 0 := by simp
  rw [if_pos h0]
  have hdiv : ([] : List Nat).length / s = 0 := by simp
  rw [hdiv]
  rfl

/-- Witness for C9 at element size 8. -/
theorem c9_empty_file_witness : includeSlice 8 ([] : List Nat) = some [] :=
  c9_empty_file 8 (by decide)

/-- Claim C10: for any file whose length equals `size_of::<T>()`,
`include_unsafe!` produces a value whose complete byte image — bytes at
padding positions included — is the file's bytes in order, so transmuting
the value back to a byte array reproduces the file exactly. -/
theorem c10_unchecked_roundtrip (tsize : Nat) (B : List Nat)
    (h : B.length = tsize) : includeUnchecked tsize B = some B := by
  unfold includeUnchecked
  rw [if_pos h]

/-- Witness for C10: the 4-byte test file at a 4-byte target type. -/
theorem c10_unchecked_roundtrip_witness :
    includeUnchecked 4 [0x01, 0x00, 0x02, 0x03] = some [0x01, 0x00, 0x02, 0x03] :=
  c10_unchecked_roundtrip 4 [0x01, 0x00, 0x02, 0x03] (by decide)

/-- Counterexample to C7 as stated: the 2-field struct `{ byte: u8,
two_bytes: u16 }` is not free of internal padding — under repr(C) layout
the `u16` field sits at offset 2, not 1, so one padding byte follows the
byte field, and the aggregate size is 4, not 3; a genuinely padding-free
2-field `{u8, u16}` layout would have size 3, and including the 4-byte
file into it fails the size check instead of yielding the claimed field
values. -/
theorem c7_no_padding_counterexample :
    (reprCPlace 0 structByteU16).get? 1 = some 2 ∧
      reprCSize structByteU16 = 4 ∧
      includeUnchecked 3 fourBytes = none := by
  decide

/-- Claim C7 (amended): the repr(C) struct `{ byte: u8, two_bytes: u16 }`
has field offsets 0 and 2 (one byte of internal padding) and size 4, so
`include_unsafe!` accepts the 4-byte file `[0x01, 0x00, 0x02, 0x03]`, and
reading the fields of the resulting value on a little-endian target gives
`0x01` for the byte field and `0x0302` for the `u16` field. -/
theorem c7_padded_struct_fields :
    reprCPlace 0 structByteU16 = [0, 2] ∧
      reprCSize structByteU16 = 4 ∧
      includeUnchecked (reprCSize structByteU16) fourBytes = some fourBytes ∧
      readFieldLE fourBytes 0 1 = 0x01 ∧
      readFieldLE fourBytes 2 2 = 0x0302 := by
  decide

/-- Claim C8: every fixed-width convenience entry point is a pure alias of
`include_slice` at the corresponding element size, with no independent
logic — including the 64-bit float alias, which delegates to the declared
`include_slice` entry point like all the others. -/
theorem c8_alias_equivalence (pw : Nat) (B : List Nat) :
    include_u8s B = includeSlice 1 B ∧ include_u16s B = includeSlice 2 B ∧
      include_u32s B = includeSlice 4 B ∧ include_u64s B = includeSlice 8 B ∧
      include_u128s B = includeSlice 16 B ∧
      include_usizes pw B = includeSlice pw B ∧
      include_i8s B = includeSlice 1 B ∧ include_i16s B = includeSlice 2 B ∧
      include_i32s B = includeSlice 4 B ∧ include_i64s B = includeSlice 8 B ∧
      include_i128s B = includeSlice 16 B ∧
      include_isizes pw B = includeSlice pw B ∧
      include_f32s B = includeSlice 4 B ∧ include_f64s B = includeSlice 8 B :=
  ⟨rfl, rfl, rfl, rfl, rfl, rfl, rfl, rfl, rfl, rfl, rfl, rfl, rfl, rfl⟩

end IncludeData
